import Mathlib

/-!
Shallow embedding of the group-assignment / fragmentation engine of
`thermo/joback.py`: the priority-mode fragmenter `smarts_fragment_priority`
(with its helper `run_match` and bounded suppression search) and the
strict-cover fragmenter `smarts_fragment` with its deduplication loop.

Atom indices are natural numbers; a match tuple is a list of atom indices
(a Python tuple of ints); a MatchSet is an association list from group id
to the list of match tuples, in dictionary insertion order.  The RDKit
pattern oracle, being external, is abstracted: its output (the tuple lists)
is an input of the model, and per-atom hydrogen counts
(`GetTotalNumHs(includeNeighbors=True)`) are a function field of `Molecule`.
-/

/-- One catalog entry: group identifier, priority, the
`hydrogen_from_smarts` flag and the `atoms` composition dictionary
(only the `"H"` entry is ever read by the code, via `atoms.get('H', 0)`). -/
structure GroupObj where
  group_id : Nat
  priority : Int
  hydrogen_from_smarts : Bool
  atoms : List (String × Nat)
deriving DecidableEq

/-- The molecule as the engine sees it: the set of heavy-atom indices
(`all_atom_idxs`), the external per-atom attached-hydrogen count, and the
total hydrogen count `H_count` computed from `AddHs`. -/
structure Molecule where
  atoms : Finset Nat
  atomH : Nat → Nat
  H_count : Nat

/-- State accumulated by `run_match`: matched atoms, per-group counts and
per-group accepted occurrence tuples (dictionaries in insertion order). -/
structure RMState where
  matched_atoms : Finset Nat
  final_group_counts : List (Nat × Nat)
  final_assignments : List (Nat × List (List Nat))
deriving DecidableEq

/-- The five-component result record of `smarts_fragment_priority`. -/
structure Assignment where
  final_group_counts : List (Nat × Nat)
  final_assignments : List (Nat × List (List Nat))
  matched_atoms : Finset Nat
  success : Bool
  status : String
deriving DecidableEq

/-- What a call of `smarts_fragment_priority` actually evaluates to: the
molecule-construction-failure path returns only three components
(`return {}, success, status`), every other path returns the full
five-component record. -/
inductive PriorityReturn where
  | construction_failed (counts : List (Nat × Nat)) (success : Bool) (status : String)
  | assignment (a : Assignment)
deriving DecidableEq

/-- Python `d.get(k, default)` on the `atoms` composition dict. -/
def dictGet (d : List (String × Nat)) (k : String) (dflt : Nat) : Nat :=
  match d with
  | [] => dflt
  | (k2, v) :: rest => if k2 = k then v else dictGet rest k dflt

/-- Dictionary lookup `all_matches[g]`, defaulting to the empty tuple list
when the group is absent (`if obj.group_id in all_matches` guards the
lookup in the source; iterating an empty list is equivalent). -/
def lookupMatches (am : List (Nat × List (List Nat))) (g : Nat) : List (List Nat) :=
  match am with
  | [] => []
  | (k, v) :: rest => if k = g then v else lookupMatches rest g

/-- Dictionary lookup in the counts dict, defaulting to 0. -/
def lookupCount (c : List (Nat × Nat)) (g : Nat) : Nat :=
  match c with
  | [] => 0
  | (k, v) :: rest => if k = g then v else lookupCount rest g

/-- `final_group_counts[g] += 1` with Python dict semantics: a missing key
is inserted (at the end, insertion order) with value 1. -/
def bumpCount (c : List (Nat × Nat)) (g : Nat) : List (Nat × Nat) :=
  match c with
  | [] => [(g, 1)]
  | (k, v) :: rest => if k = g then (k, v + 1) :: rest else (k, v) :: bumpCount rest g

/-- `final_assignments[g].append(t)` with Python dict semantics: a missing
key is inserted at the end with the one-element list. -/
def appendAssign (a : List (Nat × List (List Nat))) (g : Nat) (t : List Nat) :
    List (Nat × List (List Nat)) :=
  match a with
  | [] => [(g, [t])]
  | (k, v) :: rest => if k = g then (k, v ++ [t]) :: rest else (k, v) :: appendAssign rest g t

/-- All occurrence tuples of an assignments dictionary, in iteration order. -/
def allTuples (a : List (Nat × List (List Nat))) : List (List Nat) :=
  match a with
  | [] => []
  | (_, v) :: rest => v ++ allTuples rest

/-- Union of the atom sets of a list of tuples. -/
def unionTuples (l : List (List Nat)) : Finset Nat :=
  match l with
  | [] => ∅
  | t :: rest => t.toFinset ∪ unionTuples rest

/-- `all_heavies_matched_by_a_pattern`: every atom index appearing in any
tuple of the MatchSet. -/
def allHeavies (am : List (Nat × List (List Nat))) : Finset Nat :=
  match am with
  | [] => ∅
  | (_, v) :: rest => unionTuples v ∪ allHeavies rest

/-- Processing of one candidate tuple inside `run_match` (the body of the
inner `for match in all_matches[obj.group_id]` loop): skip on overlap with
already-matched atoms, skip a whole-molecule tuple with inconsistent
hydrogen bookkeeping (only when `H_count` is truthy, i.e. nonzero), skip a
suppressed occurrence; otherwise accept. -/
def run_match_tuple (obj : GroupObj) (all_atom_idxs : Finset Nat) (H_count : Nat)
    (ignore_matches : List (Nat × List Nat)) (st : RMState) (m : List Nat) : RMState :=
  if (m.toFinset ∩ st.matched_atoms).Nonempty then st
  else if m.toFinset = all_atom_idxs ∧ H_count ≠ 0 ∧ dictGet obj.atoms "H" 0 ≠ H_count then st
  else if (obj.group_id, m) ∈ ignore_matches then st
  else
    { matched_atoms := st.matched_atoms ∪ m.toFinset
      final_group_counts := bumpCount st.final_group_counts obj.group_id
      final_assignments := appendAssign st.final_assignments obj.group_id m }

/-- `run_match(catalog_by_priority, all_matches, ignore_matches,
all_atom_idxs, H_count)`: greedy priority-first assignment. -/
def run_match (catalog_by_priority : List GroupObj) (all_matches : List (Nat × List (List Nat)))
    (ignore_matches : List (Nat × List Nat)) (all_atom_idxs : Finset Nat) (H_count : Nat) :
    RMState :=
  catalog_by_priority.foldl
    (fun st obj =>
      (lookupMatches all_matches obj.group_id).foldl
        (run_match_tuple obj all_atom_idxs H_count ignore_matches) st)
    ⟨∅, [], []⟩

/-- Last-wins lookup of a catalog entry by group id, modelling the dict
comprehension `group_to_obj = {o.group_id: o for o in catalog}`. -/
def lookupLastObj (catalog : List GroupObj) (g : Nat) : Option GroupObj :=
  match catalog with
  | [] => none
  | o :: rest =>
    match lookupLastObj rest g with
    | some r => some r
    | none => if o.group_id = g then some o else none

/-- `group_to_obj[g]` as a total function (the engine only looks up group
ids that occur in the catalog, so the default is never reached on real
flows). -/
def group_to_obj (catalog : List GroupObj) (g : Nat) : GroupObj :=
  (lookupLastObj catalog g).getD ⟨0, 0, false, []⟩

/-- Descending lexicographic comparison of `(priority, group_id)` pairs, as
Python compares the tuples produced by `zip(priorities, groups)`. -/
def pairGe (x y : Int × Nat) : Prop :=
  y.1 < x.1 ∨ (x.1 = y.1 ∧ y.2 ≤ x.2)

instance (x y : Int × Nat) : Decidable (pairGe x y) := by
  unfold pairGe; infer_instance

/-- Stable insertion of a pair into a descending-sorted list. -/
def insDesc (x : Int × Nat) (l : List (Int × Nat)) : List (Int × Nat) :=
  match l with
  | [] => [x]
  | y :: ys => if pairGe x y then x :: y :: ys else y :: insDesc x ys

/-- `sorted(zip(priorities, groups), reverse=True)`: stable descending sort
of the `(priority, group_id)` pairs under lexicographic tuple comparison. -/
def insertionSortDesc (l : List (Int × Nat)) : List (Int × Nat) :=
  match l with
  | [] => []
  | x :: xs => insDesc x (insertionSortDesc xs)

/-- `catalog_by_priority = [group_to_obj[g] for _, g in
sorted(zip(priorities, groups), reverse=True)]`. -/
def catalog_by_priority (catalog : List GroupObj) : List GroupObj :=
  (insertionSortDesc (catalog.map (fun o => (o.priority, o.group_id)))).map
    (fun pg => group_to_obj catalog pg.2)

/-- Hydrogens contributed by one accepted occurrence: summed per-atom
attached-hydrogen counts when `hydrogen_from_smarts` is set, the group's
fixed `atoms.get('H', 0)` otherwise. -/
def tuple_hydrogens (gto : Nat → GroupObj) (atomH : Nat → Nat) (g : Nat) (t : List Nat) : Nat :=
  if (gto g).hydrogen_from_smarts then (t.map atomH).sum else dictGet (gto g).atoms "H" 0

/-- `hydrogens_found`: total hydrogen count implied by an assignments
dictionary. -/
def hydrogens_found (gto : Nat → GroupObj) (atomH : Nat → Nat)
    (assigns : List (Nat × List (List Nat))) : Nat :=
  match assigns with
  | [] => 0
  | (g, ts) :: rest => (ts.map (tuple_hydrogens gto atomH g)).sum + hydrogens_found gto atomH rest

/-- The per-trial success test of the engine:
`heavy_atom_matched and hydrogens_matched`. -/
def coverage_check (atom_count : Nat) (gto : Nat → GroupObj) (atomH : Nat → Nat)
    (H_count : Nat) (rm : RMState) : Bool :=
  (atom_count == rm.matched_atoms.card) &&
    (hydrogens_found gto atomH rm.final_assignments == H_count)

/-- `things_to_ignore`: every (group, tuple) occurrence of the MatchSet, in
dictionary iteration order. -/
def things_to_ignore (am : List (Nat × List (List Nat))) : List (Nat × List Nat) :=
  match am with
  | [] => []
  | (k, v) :: rest => v.map (fun t => (k, t)) ++ things_to_ignore rest

/-- `itertools.combinations`: all subsequences of length `n`, in the order
itertools emits them. -/
def combinations {α : Type} : Nat → List α → List (List α)
  | 0, _ => [[]]
  | _ + 1, [] => []
  | n + 1, x :: xs => (combinations n xs).map (fun c => x :: c) ++ combinations (n + 1) xs

/-- The suppression sets tried by the backtracking search: all combinations
of exactly 1, 2, 3, 4 and 5 occurrences, in increasing size
(`for remove in range(1, remove_up_to+1)` with `remove_up_to = 5`). -/
def suppressionCombos (am : List (Nat × List (List Nat))) : List (List (Nat × List Nat)) :=
  (List.range' 1 5).flatMap (fun r => combinations r (things_to_ignore am))

/-- The search loop: rerun `run_match` for each suppression set in turn,
stopping at the first one whose result passes `coverage_check`; when none
does, the state of the last trial is kept (the loop variables simply
retain their final values). -/
def searchFrom (cbp : List GroupObj) (am : List (Nat × List (List Nat)))
    (atoms : Finset Nat) (hc : Nat) (chk : RMState → Bool) :
    RMState → List (List (Nat × List Nat)) → RMState × Bool
  | rm, [] => (rm, false)
  | _, c :: cs =>
    let rm2 := run_match cbp am c atoms hc
    if chk rm2 then (rm2, true) else searchFrom cbp am atoms hc chk rm2 cs

/-- The first-pass assignment (`ignore_matches = set()`). -/
def first_pass (catalog : List GroupObj) (mol : Molecule)
    (am : List (Nat × List (List Nat))) : RMState :=
  run_match (catalog_by_priority catalog) am [] mol.atoms mol.H_count

/-- The coverage/hydrogen check instantiated for a molecule and catalog. -/
def priority_check (catalog : List GroupObj) (mol : Molecule) : RMState → Bool :=
  coverage_check mol.atoms.card (group_to_obj catalog) mol.atomH mol.H_count

/-- The backtracking search of `smarts_fragment_priority`, started from the
failed first pass. -/
def priority_search (catalog : List GroupObj) (mol : Molecule)
    (am : List (Nat × List (List Nat))) : RMState × Bool :=
  searchFrom (catalog_by_priority catalog) am mol.atoms mol.H_count
    (priority_check catalog mol) (first_pass catalog mol am) (suppressionCombos am)

/-- `smarts_fragment_priority` after molecule construction: the early
return when some heavy atom is matched by no pattern at all, the first-pass
success return, and otherwise the bounded suppression search. -/
def smarts_fragment_priority (catalog : List GroupObj) (mol : Molecule)
    (am : List (Nat × List (List Nat))) : Assignment :=
  if (allHeavies am).card ≠ mol.atoms.card then
    ⟨(first_pass catalog mol am).final_group_counts,
     (first_pass catalog mol am).final_assignments,
     (first_pass catalog mol am).matched_atoms, false, "Did not match all atoms present"⟩
  else if priority_check catalog mol (first_pass catalog mol am) then
    ⟨(first_pass catalog mol am).final_group_counts,
     (first_pass catalog mol am).final_assignments,
     (first_pass catalog mol am).matched_atoms, true, "OK"⟩
  else if (priority_search catalog mol am).2 then
    ⟨(priority_search catalog mol am).1.final_group_counts,
     (priority_search catalog mol am).1.final_assignments,
     (priority_search catalog mol am).1.matched_atoms, true, "OK"⟩
  else
    ⟨(priority_search catalog mol am).1.final_group_counts,
     (priority_search catalog mol am).1.final_assignments,
     (priority_search catalog mol am).1.matched_atoms, false, "Did not match all atoms present"⟩

/-- The full call surface of `smarts_fragment_priority`: when the molecule
cannot be constructed from the SMILES string the source executes
`return {}, success, status` — a three-component return — and only the
other paths produce the five-component record. The parsing itself is
external; its outcome (the molecule together with the collected MatchSet)
is the `Option` input. -/
def smarts_fragment_priority_api (catalog : List GroupObj)
    (parsed : Option (Molecule × List (Nat × List (List Nat)))) : PriorityReturn :=
  match parsed with
  | none => PriorityReturn.construction_failed [] false "Failed to construct mol"
  | some (mol, am) => PriorityReturn.assignment (smarts_fragment_priority catalog mol am)

/-- `matched_atoms` as a flat list with repetitions:
`for i in all_matches.values(): for j in i: matched_atoms.extend(j)`. -/
def flatAtoms (am : List (Nat × List (List Nat))) : List Nat :=
  match am with
  | [] => []
  | (_, v) :: rest => v.flatMap (fun t => t) ++ flatAtoms rest

/-- Distinct elements in order of first occurrence (the iteration order of
`Counter(matched_atoms).items()`). -/
def firstOccAux (l : List Nat) (seen : List Nat) : List Nat :=
  match l with
  | [] => []
  | x :: xs => if x ∈ seen then firstOccAux xs seen else x :: firstOccAux xs (x :: seen)

/-- `dups = [i for i, c in Counter(matched_atoms).items() if c > 1]`. -/
def computeDups (am : List (Nat × List (List Nat))) : List Nat :=
  (firstOccAux (flatAtoms am) []).filter (fun x => 1 < (flatAtoms am).count x)

/-- `dup_smart_matches`: every (group, index, tuple, size) whose tuple
claims the contested atom, in dictionary iteration order. -/
def dup_smart_matches (am : List (Nat × List (List Nat))) (dup : Nat) :
    List (Nat × Nat × List Nat × Nat) :=
  match am with
  | [] => []
  | (g, v) :: rest =>
    (v.enum.filterMap (fun p => if dup ∈ p.2 then some (g, p.1, p.2, p.2.length) else none))
      ++ dup_smart_matches rest dup

/-- `del all_matches[group][idx]`: remove the entry at position `idx` from
the tuple list of `group` (positions past the end leave the list
unchanged; the source only reaches in-range positions or raises). -/
def eraseMatchAt (am : List (Nat × List (List Nat))) (g : Nat) (idx : Nat) :
    List (Nat × List (List Nat)) :=
  match am with
  | [] => []
  | (k, v) :: rest =>
    if k = g then (k, v.eraseIdx idx) :: rest else (k, v) :: eraseMatchAt rest g idx

/-- Largest tuple size among the competitors (`max(sizes)`; the competitor
list is nonempty whenever `dup` really is a duplicated atom). -/
def maxSize (l : List Nat) : Nat := l.foldr max 0

/-- The mutating branch of one round of the deduplication loop: delete, in
order, every competitor whose size is below the maximum, each deletion
using the index recorded before any deletion happened (exactly the
source's `del all_matches[group][idx]` with its stale indices). -/
def dedup_round (am : List (Nat × List (List Nat))) (dup : Nat) :
    List (Nat × List (List Nat)) :=
  (dup_smart_matches am dup).foldl
    (fun acc e =>
      if e.2.2.2 ≠ maxSize ((dup_smart_matches am dup).map (fun e2 => e2.2.2.2))
      then eraseMatchAt acc e.1 e.2.1 else acc)
    am

/-- The `while (dups and iteration < 100)` loop: `fuel` is the number of
iterations still allowed; a round whose maximum size is shared by several
competitors leaves the state (and the stale `dups` list) unchanged and
only consumes an iteration. -/
def dedup_go (fuel : Nat) (am : List (Nat × List (List Nat))) (dups : List Nat) :
    List (Nat × List (List Nat)) :=
  match fuel, dups with
  | 0, _ => am
  | _ + 1, [] => am
  | fuel + 1, dup :: rest =>
    let dsm := dup_smart_matches am dup
    let sizes := dsm.map (fun e => e.2.2.2)
    if 1 < sizes.count (maxSize sizes) then dedup_go fuel am (dup :: rest)
    else
      let am2 := dedup_round am dup
      dedup_go fuel am2 (computeDups am2)

/-- The nonempty hit lists recorded by the collector loop
(`if hits: all_matches[key] = hits`), keeping catalog order. -/
def initial_matches (hits : List (Nat × List (List Nat))) : List (Nat × List (List Nat)) :=
  hits.filter (fun kv => ¬ kv.2.isEmpty)

/-- The MatchSet left over once the deduplication loop of `smarts_fragment`
has finished deleting tuples. -/
def smarts_fragment_final_matches (hits : List (Nat × List (List Nat))) :
    List (Nat × List (List Nat)) :=
  dedup_go 100 (initial_matches hits) (computeDups (initial_matches hits))

/-- The counts dictionary of `smarts_fragment`, recorded from the initial
hit lists (`counts[key] = len(hits)`) and never updated afterwards. -/
def smarts_fragment_counts (hits : List (Nat × List (List Nat))) : List (Nat × Nat) :=
  (initial_matches hits).map (fun kv => (kv.1, kv.2.length))

/-- The MatchSet `smarts_fragment` measures coverage on: the post-dedup
matches when `deduplicate` is set, the initial matches otherwise. -/
def smarts_fragment_final (hits : List (Nat × List (List Nat))) (deduplicate : Bool) :
    List (Nat × List (List Nat)) :=
  if deduplicate then smarts_fragment_final_matches hits else initial_matches hits

/-- `smarts_fragment` (strict-cover mode) after molecule construction, with
the oracle's per-catalog-entry hit lists as input: counts are recorded from
the initial hit lists, the dedup loop then deletes tuples, and success
requires the remaining matches to cover every atom exactly once. -/
def smarts_fragment (hits : List (Nat × List (List Nat))) (atom_count : Nat)
    (deduplicate : Bool) : (List (Nat × Nat)) × Bool × String :=
  if (allHeavies (smarts_fragment_final hits deduplicate)).card ≠ atom_count then
    (smarts_fragment_counts hits, false, "Did not match all atoms present")
  else if (flatAtoms (smarts_fragment_final hits deduplicate)).length < atom_count then
    (smarts_fragment_counts hits, false,
      "Matched " ++ toString (flatAtoms (smarts_fragment_final hits deduplicate)).length
        ++ " of " ++ toString atom_count ++ " atoms only")
  else if atom_count < (flatAtoms (smarts_fragment_final hits deduplicate)).length then
    (smarts_fragment_counts hits, false,
      "Matched some atoms repeatedly: "
        ++ toString (computeDups (smarts_fragment_final hits deduplicate)))
  else (smarts_fragment_counts hits, true, "OK")

/-- A fold preserves any invariant its step preserves on list members. -/
theorem foldl_mem_preserves {α β : Type} (I : β → Prop) (f : β → α → β) :
    ∀ (l : List α) (st : β), (∀ st2 a, a ∈ l → I st2 → I (f st2 a)) → I st → I (l.foldl f st) := by
  intro l
  induction l with
  | nil => intro st _ h0; exact h0
  | cons a l ih =>
    intro st h h0
    exact ih (f st a) (fun st2 b hb => h st2 b (List.mem_cons_of_mem a hb))
      (h st a (List.mem_cons_self a l) h0)

/-- Master invariant principle for `run_match`: any state property that the
per-tuple step preserves (for tuples drawn from the MatchSet) holds of the
result. -/
theorem run_match_inv (I : RMState → Prop) (cbp : List GroupObj)
    (am : List (Nat × List (List Nat))) (ig : List (Nat × List Nat))
    (atoms : Finset Nat) (hc : Nat)
    (hstep : ∀ (obj : GroupObj) (st : RMState) (m : List Nat),
      m ∈ lookupMatches am obj.group_id → I st → I (run_match_tuple obj atoms hc ig st m))
    (h0 : I ⟨∅, [], []⟩) : I (run_match cbp am ig atoms hc) := by
  refine foldl_mem_preserves I _ cbp ⟨∅, [], []⟩ (fun st obj _ hI => ?_) h0
  exact foldl_mem_preserves I _ (lookupMatches am obj.group_id) st
    (fun st2 m hm hI2 => hstep obj st2 m hm hI2) hI

/-- The per-tuple step either skips (state unchanged) or accepts: the
accepted tuple is disjoint from the atoms already matched and is not a
suppressed occurrence. -/
theorem run_match_tuple_cases (obj : GroupObj) (atoms : Finset Nat) (hc : Nat)
    (ig : List (Nat × List Nat)) (st : RMState) (m : List Nat) :
    run_match_tuple obj atoms hc ig st m = st ∨
      (run_match_tuple obj atoms hc ig st m =
          ⟨st.matched_atoms ∪ m.toFinset, bumpCount st.final_group_counts obj.group_id,
            appendAssign st.final_assignments obj.group_id m⟩ ∧
        m.toFinset ∩ st.matched_atoms = ∅ ∧ (obj.group_id, m) ∉ ig) := by
  unfold run_match_tuple
  by_cases h1 : (m.toFinset ∩ st.matched_atoms).Nonempty
  · left; rw [if_pos h1]
  · rw [if_neg h1]
    by_cases h2 : m.toFinset = atoms ∧ hc ≠ 0 ∧ dictGet obj.atoms "H" 0 ≠ hc
    · left; rw [if_pos h2]
    · rw [if_neg h2]
      by_cases h3 : (obj.group_id, m) ∈ ig
      · left; rw [if_pos h3]
      · right
        refine ⟨by rw [if_neg h3], ?_, h3⟩
        exact Finset.not_nonempty_iff_eq_empty.mp h1

/-- Membership in the union of a tuple list. -/
theorem mem_unionTuples (l : List (List Nat)) (i : Nat) :
    i ∈ unionTuples l ↔ ∃ t ∈ l, i ∈ t := by
  induction l with
  | nil => simp [unionTuples]
  | cons t rest ih => simp [unionTuples, ih]

/-- Membership in `all_heavies_matched_by_a_pattern`. -/
theorem mem_allHeavies (am : List (Nat × List (List Nat))) (i : Nat) :
    i ∈ allHeavies am ↔ ∃ kv ∈ am, ∃ t ∈ kv.2, i ∈ t := by
  induction am with
  | nil => simp [allHeavies]
  | cons kv rest ih =>
    match kv with
    | (k, v) => simp [allHeavies, mem_unionTuples, ih]

/-- A tuple returned by the dictionary lookup belongs to some entry of the
MatchSet. -/
theorem lookupMatches_mem (am : List (Nat × List (List Nat))) (g : Nat) (t : List Nat)
    (h : t ∈ lookupMatches am g) : ∃ kv ∈ am, t ∈ kv.2 := by
  induction am with
  | nil => simp [lookupMatches] at h
  | cons kv rest ih =>
    match kv with
    | (k, v) =>
      by_cases hk : k = g
      · refine ⟨(k, v), List.mem_cons_self _ _, ?_⟩
        simpa [lookupMatches, hk] using h
      · have h2 : t ∈ lookupMatches rest g := by simpa [lookupMatches, hk] using h
        obtain ⟨kv2, hkv2, ht⟩ := ih h2
        exact ⟨kv2, List.mem_cons_of_mem _ hkv2, ht⟩

/-- An atom of a looked-up tuple is in `allHeavies`. -/
theorem lookupMatches_subset_allHeavies (am : List (Nat × List (List Nat))) (g : Nat)
    (t : List Nat) (h : t ∈ lookupMatches am g) : t.toFinset ⊆ allHeavies am := by
  intro i hi
  obtain ⟨kv, hkv, ht⟩ := lookupMatches_mem am g t h
  exact (mem_allHeavies am i).mpr ⟨kv, hkv, t, ht, List.mem_toFinset.mp hi⟩

/-- The matched-atoms set of any `run_match` result stays inside the atoms
mentioned by the MatchSet. -/
theorem run_match_matched_subset (cbp : List GroupObj) (am : List (Nat × List (List Nat)))
    (ig : List (Nat × List Nat)) (atoms : Finset Nat) (hc : Nat) :
    (run_match cbp am ig atoms hc).matched_atoms ⊆ allHeavies am := by
  refine run_match_inv (fun st => st.matched_atoms ⊆ allHeavies am) cbp am ig atoms hc
    (fun obj st m hm hI => ?_) (by simp)
  rcases run_match_tuple_cases obj atoms hc ig st m with h | ⟨h, _, _⟩
  · rw [h]; exact hI
  · rw [h]
    exact Finset.union_subset hI (lookupMatches_subset_allHeavies am obj.group_id m hm)

/-- Appending a tuple to a group's list inserts it, up to permutation, at
the end of the flat tuple list. -/
theorem allTuples_appendAssign (a : List (Nat × List (List Nat))) (g : Nat) (t : List Nat) :
    (allTuples (appendAssign a g t)).Perm (allTuples a ++ [t]) := by
  induction a with
  | nil => simp [appendAssign, allTuples]
  | cons kv rest ih =>
    match kv with
    | (k, v) =>
      by_cases hk : k = g
      · simp only [appendAssign, if_pos hk, allTuples]
        rw [List.append_assoc, List.append_assoc]
        exact List.Perm.append_left v List.perm_append_comm
      · simp only [appendAssign, if_neg hk, allTuples]
        calc (v ++ allTuples (appendAssign rest g t)).Perm
              (v ++ (allTuples rest ++ [t])) := List.Perm.append_left v ih
          _ = (v ++ allTuples rest) ++ [t] := (List.append_assoc v (allTuples rest) [t]).symm

/-- `unionTuples` only depends on membership. -/
theorem unionTuples_perm (l1 l2 : List (List Nat)) (h : l1.Perm l2) :
    unionTuples l1 = unionTuples l2 := by
  ext i
  rw [mem_unionTuples, mem_unionTuples]
  constructor
  · rintro ⟨t, ht, hi⟩; exact ⟨t, h.mem_iff.mp ht, hi⟩
  · rintro ⟨t, ht, hi⟩; exact ⟨t, h.mem_iff.mpr ht, hi⟩

/-- `unionTuples` over an appended list. -/
theorem unionTuples_append (l1 l2 : List (List Nat)) :
    unionTuples (l1 ++ l2) = unionTuples l1 ∪ unionTuples l2 := by
  induction l1 with
  | nil => simp [unionTuples]
  | cons t rest ih => simp [unionTuples, ih, Finset.union_assoc]

/-- Tuple-disjointness is symmetric. -/
theorem tupleDisjoint_symm :
    Symmetric (fun t1 t2 : List Nat => t1.toFinset ∩ t2.toFinset = ∅) := by
  intro t1 t2 h
  rwa [Finset.inter_comm]

/-- Non-overlap and exact-union invariant of `run_match`: the accepted
tuples are pairwise disjoint and `matched_atoms` is exactly their union. -/
theorem run_match_disjoint_union (cbp : List GroupObj) (am : List (Nat × List (List Nat)))
    (ig : List (Nat × List Nat)) (atoms : Finset Nat) (hc : Nat) :
    (allTuples (run_match cbp am ig atoms hc).final_assignments).Pairwise
        (fun t1 t2 => t1.toFinset ∩ t2.toFinset = ∅) ∧
      (run_match cbp am ig atoms hc).matched_atoms =
        unionTuples (allTuples (run_match cbp am ig atoms hc).final_assignments) := by
  refine run_match_inv (fun st =>
      (allTuples st.final_assignments).Pairwise
          (fun t1 t2 => t1.toFinset ∩ t2.toFinset = ∅) ∧
        st.matched_atoms = unionTuples (allTuples st.final_assignments))
    cbp am ig atoms hc (fun obj st m hm hI => ?_) (by simp [allTuples, unionTuples])
  rcases run_match_tuple_cases obj atoms hc ig st m with h | ⟨h, hdisj, _⟩
  · rw [h]; exact hI
  · rw [h]
    obtain ⟨hpw, huni⟩ := hI
    have hperm := allTuples_appendAssign st.final_assignments obj.group_id m
    constructor
    · rw [hperm.pairwise_iff (fun h => tupleDisjoint_symm h)]
      rw [List.pairwise_append]
      refine ⟨hpw, by simp, ?_⟩
      intro t ht t2 ht2
      have ht2e : t2 = m := by simpa using ht2
      rw [ht2e]
      have hsub : t.toFinset ⊆ st.matched_atoms := by
        rw [huni]
        intro i hi
        exact (mem_unionTuples _ i).mpr ⟨t, ht, List.mem_toFinset.mp hi⟩
      have hsub2 : t.toFinset ∩ m.toFinset ⊆ m.toFinset ∩ st.matched_atoms := by
        intro i hi
        rw [Finset.mem_inter] at hi
        exact Finset.mem_inter.mpr ⟨hi.2, hsub hi.1⟩
      rw [hdisj] at hsub2
      exact Finset.subset_empty.mp hsub2
    · rw [unionTuples_perm _ _ hperm, unionTuples_append, huni]
      simp [unionTuples]

/-- Bumping a group's count raises exactly that group's looked-up count. -/
theorem lookupCount_bumpCount (c : List (Nat × Nat)) (g g2 : Nat) :
    lookupCount (bumpCount c g) g2 =
      if g2 = g then lookupCount c g2 + 1 else lookupCount c g2 := by
  induction c with
  | nil =>
    by_cases h : g2 = g
    · subst h; simp [bumpCount, lookupCount]
    · have h2 : ¬ g = g2 := fun h3 => h h3.symm
      simp [bumpCount, lookupCount, h, h2]
  | cons kv rest ih =>
    match kv with
    | (k, v) =>
      by_cases hk : k = g
      · subst hk
        by_cases h : g2 = k
        · subst h; simp [bumpCount, lookupCount]
        · have h2 : ¬ k = g2 := fun h3 => h h3.symm
          simp [bumpCount, lookupCount, h, h2]
      · by_cases h : k = g2
        · have hg2 : ¬ g2 = g := fun h3 => hk (h.trans h3)
          simp [bumpCount, lookupCount, hk, h, hg2]
        · simp only [bumpCount, if_neg hk, lookupCount, if_neg h]
          exact ih

/-- Appending a tuple extends exactly that group's looked-up tuple list. -/
theorem lookupMatches_appendAssign (a : List (Nat × List (List Nat))) (g g2 : Nat)
    (t : List Nat) :
    lookupMatches (appendAssign a g t) g2 =
      if g2 = g then lookupMatches a g2 ++ [t] else lookupMatches a g2 := by
  induction a with
  | nil =>
    by_cases h : g2 = g
    · subst h; simp [appendAssign, lookupMatches]
    · have h2 : ¬ g = g2 := fun h3 => h h3.symm
      simp [appendAssign, lookupMatches, h, h2]
  | cons kv rest ih =>
    match kv with
    | (k, v) =>
      by_cases hk : k = g
      · subst hk
        by_cases h : g2 = k
        · subst h; simp [appendAssign, lookupMatches]
        · have h2 : ¬ k = g2 := fun h3 => h h3.symm
          simp [appendAssign, lookupMatches, h, h2]
      · by_cases h : k = g2
        · have hg2 : ¬ g2 = g := fun h3 => hk (h.trans h3)
          simp [appendAssign, lookupMatches, hk, h, hg2]
        · simp only [appendAssign, if_neg hk, lookupMatches, if_neg h]
          exact ih

/-- Counts/occurrences agreement for `run_match`: every group's count is
the length of its accepted occurrence list. -/
theorem run_match_counts_length (cbp : List GroupObj) (am : List (Nat × List (List Nat)))
    (ig : List (Nat × List Nat)) (atoms : Finset Nat) (hc : Nat) (g : Nat) :
    lookupCount (run_match cbp am ig atoms hc).final_group_counts g =
      (lookupMatches (run_match cbp am ig atoms hc).final_assignments g).length := by
  refine run_match_inv (fun st => ∀ g2,
      lookupCount st.final_group_counts g2 =
        (lookupMatches st.final_assignments g2).length)
    cbp am ig atoms hc (fun obj st m hm hI => ?_) (by simp [lookupCount, lookupMatches]) g
  intro g2
  rcases run_match_tuple_cases obj atoms hc ig st m with h | ⟨h, _, _⟩
  · rw [h]; exact hI g2
  · rw [h]
    simp only [lookupCount_bumpCount, lookupMatches_appendAssign]
    by_cases hg : g2 = obj.group_id
    · rw [if_pos hg, if_pos hg, List.length_append, hI g2]
      simp
    · rw [if_neg hg, if_neg hg]
      exact hI g2

/-- Provenance of accepted occurrences: every tuple accepted for a group by
`run_match` is a tuple the MatchSet holds for that group, and is not a
suppressed occurrence. -/
theorem run_match_accepted_from_matches (cbp : List GroupObj)
    (am : List (Nat × List (List Nat))) (ig : List (Nat × List Nat))
    (atoms : Finset Nat) (hc : Nat) (g : Nat) (t : List Nat)
    (ht : t ∈ lookupMatches (run_match cbp am ig atoms hc).final_assignments g) :
    t ∈ lookupMatches am g ∧ (g, t) ∉ ig := by
  refine run_match_inv (fun st => ∀ g2 t2,
      t2 ∈ lookupMatches st.final_assignments g2 →
        t2 ∈ lookupMatches am g2 ∧ (g2, t2) ∉ ig)
    cbp am ig atoms hc (fun obj st m hm hI => ?_) (by simp [lookupMatches]) g t ht
  intro g2 t2 ht2
  rcases run_match_tuple_cases obj atoms hc ig st m with h | ⟨h, _, hig⟩
  · rw [h] at ht2; exact hI g2 t2 ht2
  · rw [h] at ht2
    simp only [lookupMatches_appendAssign] at ht2
    by_cases hg : g2 = obj.group_id
    · rw [if_pos hg] at ht2
      rcases List.mem_append.mp ht2 with h2 | h2
      · exact hI g2 t2 h2
      · have he : t2 = m := by simpa using h2
        subst he
        subst hg
        exact ⟨hm, hig⟩
    · rw [if_neg hg] at ht2
      exact hI g2 t2 ht2

/-- The search keeps the state of the last trial and reports success
exactly when some trial passed; the result state is the start state or the
`run_match` output of one of the suppression sets. -/
theorem searchFrom_origin (cbp : List GroupObj) (am : List (Nat × List (List Nat)))
    (atoms : Finset Nat) (hc : Nat) (chk : RMState → Bool) :
    ∀ (cs : List (List (Nat × List Nat))) (rm : RMState),
      (searchFrom cbp am atoms hc chk rm cs).1 = rm ∨
        ∃ c ∈ cs, (searchFrom cbp am atoms hc chk rm cs).1 = run_match cbp am c atoms hc := by
  intro cs
  induction cs with
  | nil => intro rm; left; rfl
  | cons c cs ih =>
    intro rm
    simp only [searchFrom]
    by_cases h : chk (run_match cbp am c atoms hc)
    · right
      exact ⟨c, List.mem_cons_self c cs, by rw [if_pos h]⟩
    · rw [if_neg h]
      rcases ih (run_match cbp am c atoms hc) with h2 | ⟨c2, hc2, h2⟩
      · right; exact ⟨c, List.mem_cons_self c cs, h2⟩
      · right; exact ⟨c2, List.mem_cons_of_mem c hc2, h2⟩

/-- When the start state fails the check, the search's success flag equals
the check's verdict on the state it returns. -/
theorem searchFrom_flag (cbp : List GroupObj) (am : List (Nat × List (List Nat)))
    (atoms : Finset Nat) (hc : Nat) (chk : RMState → Bool) :
    ∀ (cs : List (List (Nat × List Nat))) (rm : RMState), chk rm = false →
      (searchFrom cbp am atoms hc chk rm cs).2 = chk (searchFrom cbp am atoms hc chk rm cs).1 := by
  intro cs
  induction cs with
  | nil => intro rm h; simp [searchFrom, h]
  | cons c cs ih =>
    intro rm h
    simp only [searchFrom]
    by_cases h2 : chk (run_match cbp am c atoms hc)
    · simp [if_pos h2, h2]
    · rw [if_neg h2]
      exact ih (run_match cbp am c atoms hc) (by simpa using h2)

/-- The search returns the `run_match` result of the first suppression set
passing the check, and reports failure when none passes. -/
theorem searchFrom_find (cbp : List GroupObj) (am : List (Nat × List (List Nat)))
    (atoms : Finset Nat) (hc : Nat) (chk : RMState → Bool) :
    ∀ (cs : List (List (Nat × List Nat))) (rm : RMState),
      (∀ c, cs.find? (fun c2 => chk (run_match cbp am c2 atoms hc)) = some c →
        searchFrom cbp am atoms hc chk rm cs = (run_match cbp am c atoms hc, true)) ∧
      (cs.find? (fun c2 => chk (run_match cbp am c2 atoms hc)) = none →
        (searchFrom cbp am atoms hc chk rm cs).2 = false) := by
  intro cs
  induction cs with
  | nil =>
    intro rm
    constructor
    · intro c hfind; simp [List.find?] at hfind
    · intro _; rfl
  | cons c cs ih =>
    intro rm
    constructor
    · intro c2 hfind
      simp only [List.find?] at hfind
      by_cases h : chk (run_match cbp am c atoms hc)
      · rw [h] at hfind
        simp at hfind
        subst hfind
        simp [searchFrom, h]
      · rw [Bool.not_eq_true] at h
        rw [h] at hfind
        simp only [searchFrom]
        rw [if_neg (by simp [h])]
        exact (ih (run_match cbp am c atoms hc)).1 c2 hfind
    · intro hfind
      simp only [List.find?] at hfind
      by_cases h : chk (run_match cbp am c atoms hc)
      · rw [h] at hfind; simp at hfind
      · rw [Bool.not_eq_true] at h
        rw [h] at hfind
        simp only [searchFrom]
        rw [if_neg (by simp [h])]
        exact (ih (run_match cbp am c atoms hc)).2 hfind

/-- When every tuple of the MatchSet stays inside the molecule (true of the
substructure oracle's output), so does `allHeavies`. -/
theorem allHeavies_subset (am : List (Nat × List (List Nat))) (atoms : Finset Nat)
    (hsub : ∀ kv ∈ am, ∀ t ∈ kv.2, ∀ i ∈ t, i ∈ atoms) : allHeavies am ⊆ atoms := by
  intro i hi
  obtain ⟨kv, hkv, t, ht, hit⟩ := (mem_allHeavies am i).mp hi
  exact hsub kv hkv t ht i hit

/-- Unfolding of the Boolean success test. -/
theorem coverage_check_iff (atom_count : Nat) (gto : Nat → GroupObj) (atomH : Nat → Nat)
    (H_count : Nat) (rm : RMState) :
    coverage_check atom_count gto atomH H_count rm = true ↔
      (atom_count = rm.matched_atoms.card ∧
        hydrogens_found gto atomH rm.final_assignments = H_count) := by
  unfold coverage_check
  rw [Bool.and_eq_true, beq_iff_eq, beq_iff_eq]

/-- The state returned by the priority-mode engine is always an output of
`run_match` on the same MatchSet. -/
theorem priority_result_is_run_match (catalog : List GroupObj) (mol : Molecule)
    (am : List (Nat × List (List Nat))) :
    ∃ ig, smarts_fragment_priority catalog mol am =
      ⟨(run_match (catalog_by_priority catalog) am ig mol.atoms mol.H_count).final_group_counts,
       (run_match (catalog_by_priority catalog) am ig mol.atoms mol.H_count).final_assignments,
       (run_match (catalog_by_priority catalog) am ig mol.atoms mol.H_count).matched_atoms,
       (smarts_fragment_priority catalog mol am).success,
       (smarts_fragment_priority catalog mol am).status⟩ := by
  have horig : (priority_search catalog mol am).1 = first_pass catalog mol am ∨
      ∃ c, (priority_search catalog mol am).1 =
        run_match (catalog_by_priority catalog) am c mol.atoms mol.H_count := by
    rcases searchFrom_origin (catalog_by_priority catalog) am mol.atoms mol.H_count
        (priority_check catalog mol) (suppressionCombos am) (first_pass catalog mol am)
      with h | ⟨c, _, h⟩
    · exact Or.inl h
    · exact Or.inr ⟨c, h⟩
  unfold smarts_fragment_priority
  by_cases h1 : (allHeavies am).card ≠ mol.atoms.card
  · rw [if_pos h1]; exact ⟨[], rfl⟩
  · rw [if_neg h1]
    by_cases h2 : priority_check catalog mol (first_pass catalog mol am) = true
    · rw [if_pos h2]; exact ⟨[], rfl⟩
    · rw [if_neg h2]
      rcases horig with h3 | ⟨c, h3⟩
      · by_cases h4 : (priority_search catalog mol am).2
        · rw [if_pos h4, h3]; exact ⟨[], rfl⟩
        · rw [if_neg h4, h3]; exact ⟨[], rfl⟩
      · by_cases h4 : (priority_search catalog mol am).2
        · rw [if_pos h4, h3]; exact ⟨c, rfl⟩
        · rw [if_neg h4, h3]; exact ⟨c, rfl⟩

/-- C1. **Coverage completeness iff success** for `smarts_fragment_priority`
(after molecule construction, with the oracle's tuples inside the
molecule): the returned success flag is true exactly when the returned
`matched_atoms` equals the molecule's full heavy-atom set and the implied
hydrogen total (`hydrogens_found` over the returned assignment) equals the
molecule's hydrogen count. -/
theorem smarts_fragment_priority_success_iff (catalog : List GroupObj) (mol : Molecule)
    (am : List (Nat × List (List Nat)))
    (hsub : ∀ kv ∈ am, ∀ t ∈ kv.2, ∀ i ∈ t, i ∈ mol.atoms) :
    (smarts_fragment_priority catalog mol am).success = true ↔
      ((smarts_fragment_priority catalog mol am).matched_atoms = mol.atoms ∧
        hydrogens_found (group_to_obj catalog) mol.atomH
          (smarts_fragment_priority catalog mol am).final_assignments = mol.H_count) := by
  have hah : allHeavies am ⊆ mol.atoms := allHeavies_subset am mol.atoms hsub
  unfold smarts_fragment_priority
  by_cases h1 : (allHeavies am).card ≠ mol.atoms.card
  · rw [if_pos h1]
    simp only [Bool.false_eq_true, false_iff]
    rintro ⟨hcov, _⟩
    have hmsub : (first_pass catalog mol am).matched_atoms ⊆ allHeavies am :=
      run_match_matched_subset (catalog_by_priority catalog) am [] mol.atoms mol.H_count
    have : mol.atoms ⊆ allHeavies am := by
      rw [← hcov]; exact hmsub
    exact h1 (le_antisymm (Finset.card_le_card hah) (Finset.card_le_card this))
  · rw [if_neg h1]
    by_cases h2 : priority_check catalog mol (first_pass catalog mol am) = true
    · rw [if_pos h2]
      obtain ⟨hcard, hhyd⟩ := (coverage_check_iff mol.atoms.card (group_to_obj catalog)
        mol.atomH mol.H_count (first_pass catalog mol am)).mp h2
      have hmsub : (first_pass catalog mol am).matched_atoms ⊆ mol.atoms :=
        (run_match_matched_subset (catalog_by_priority catalog) am [] mol.atoms
          mol.H_count).trans hah
      have hcov : (first_pass catalog mol am).matched_atoms = mol.atoms :=
        Finset.eq_of_subset_of_card_le hmsub (le_of_eq hcard)
      simp [hcov, hhyd]
    · rw [if_neg h2]
      have h2f : priority_check catalog mol (first_pass catalog mol am) = false :=
        Bool.not_eq_true _ ▸ Bool.of_not_eq_true h2
      have hflag : (priority_search catalog mol am).2 =
          priority_check catalog mol (priority_search catalog mol am).1 :=
        searchFrom_flag (catalog_by_priority catalog) am mol.atoms mol.H_count
          (priority_check catalog mol) (suppressionCombos am) (first_pass catalog mol am) h2f
      have horig : (priority_search catalog mol am).1 = first_pass catalog mol am ∨
          ∃ c, (priority_search catalog mol am).1 =
            run_match (catalog_by_priority catalog) am c mol.atoms mol.H_count := by
        rcases searchFrom_origin (catalog_by_priority catalog) am mol.atoms mol.H_count
            (priority_check catalog mol) (suppressionCombos am) (first_pass catalog mol am)
          with h | ⟨c, _, h⟩
        · exact Or.inl h
        · exact Or.inr ⟨c, h⟩
      have hmsub : (priority_search catalog mol am).1.matched_atoms ⊆ mol.atoms := by
        rcases horig with h3 | ⟨c, h3⟩
        · rw [h3]
          exact (run_match_matched_subset (catalog_by_priority catalog) am [] mol.atoms
            mol.H_count).trans hah
        · rw [h3]
          exact (run_match_matched_subset (catalog_by_priority catalog) am c mol.atoms
            mol.H_count).trans hah
      by_cases h4 : (priority_search catalog mol am).2
      · rw [if_pos h4]
        have hchk : priority_check catalog mol (priority_search catalog mol am).1 = true := by
          rw [← hflag]; exact h4
        obtain ⟨hcard, hhyd⟩ := (coverage_check_iff mol.atoms.card (group_to_obj catalog)
          mol.atomH mol.H_count (priority_search catalog mol am).1).mp hchk
        have hcov : (priority_search catalog mol am).1.matched_atoms = mol.atoms :=
          Finset.eq_of_subset_of_card_le hmsub (le_of_eq hcard)
        simp [hcov, hhyd]
      · rw [if_neg h4]
        simp only [Bool.false_eq_true, false_iff]
        rintro ⟨hcov, hhyd⟩
        have hchk : priority_check catalog mol (priority_search catalog mol am).1 = false := by
          rw [← hflag]; exact Bool.not_eq_true _ ▸ Bool.of_not_eq_true h4
        rw [priority_check, coverage_check] at hchk
        simp only [Bool.and_eq_false_iff] at hchk
        rcases hchk with h5 | h5
        · rw [hcov] at h5; simp at h5
        · rw [hhyd] at h5; simp at h5

/-- C2. **Non-overlap and exact union**: in every assignment produced by
`run_match` — whatever the catalog order, MatchSet (overlaps allowed),
suppression set, atom set and hydrogen count — the accepted tuples are
pairwise disjoint and `matched_atoms` is exactly their union; and the same
holds of the record returned by `smarts_fragment_priority`. -/
theorem run_match_nonoverlap_union :
    (∀ (cbp : List GroupObj) (am : List (Nat × List (List Nat)))
        (ig : List (Nat × List Nat)) (atoms : Finset Nat) (hc : Nat),
      (allTuples (run_match cbp am ig atoms hc).final_assignments).Pairwise
          (fun t1 t2 => t1.toFinset ∩ t2.toFinset = ∅) ∧
        (run_match cbp am ig atoms hc).matched_atoms =
          unionTuples (allTuples (run_match cbp am ig atoms hc).final_assignments)) ∧
    (∀ (catalog : List GroupObj) (mol : Molecule) (am : List (Nat × List (List Nat))),
      (allTuples (smarts_fragment_priority catalog mol am).final_assignments).Pairwise
          (fun t1 t2 => t1.toFinset ∩ t2.toFinset = ∅) ∧
        (smarts_fragment_priority catalog mol am).matched_atoms =
          unionTuples (allTuples (smarts_fragment_priority catalog mol am).final_assignments)) := by
  constructor
  · exact fun cbp am ig atoms hc => run_match_disjoint_union cbp am ig atoms hc
  · intro catalog mol am
    obtain ⟨ig, hig⟩ := priority_result_is_run_match catalog mol am
    rw [hig]
    exact run_match_disjoint_union (catalog_by_priority catalog) am ig mol.atoms mol.H_count

/-- C3. **Immediate failure on incomplete catalog coverage**: when some
heavy atom of the molecule is matched by no pattern anywhere in the
MatchSet, `smarts_fragment_priority` returns the first-pass record
unchanged with `success = false` and status
"Did not match all atoms present" — the suppression search is never
entered (the returned state is the plain first pass with an empty
suppression set). -/
theorem incomplete_coverage_immediate (catalog : List GroupObj) (mol : Molecule)
    (am : List (Nat × List (List Nat)))
    (hsub : ∀ kv ∈ am, ∀ t ∈ kv.2, ∀ i ∈ t, i ∈ mol.atoms)
    (hmiss : ∃ a ∈ mol.atoms, a ∉ allHeavies am) :
    smarts_fragment_priority catalog mol am =
      ⟨(run_match (catalog_by_priority catalog) am [] mol.atoms mol.H_count).final_group_counts,
       (run_match (catalog_by_priority catalog) am [] mol.atoms mol.H_count).final_assignments,
       (run_match (catalog_by_priority catalog) am [] mol.atoms mol.H_count).matched_atoms,
       false, "Did not match all atoms present"⟩ := by
  have hah : allHeavies am ⊆ mol.atoms := allHeavies_subset am mol.atoms hsub
  have hss : allHeavies am ⊂ mol.atoms := by
    obtain ⟨a, ha, hna⟩ := hmiss
    exact (Finset.ssubset_iff_of_subset hah).mpr ⟨a, ha, hna⟩
  have h1 : (allHeavies am).card ≠ mol.atoms.card :=
    Nat.ne_of_lt (Finset.card_lt_card hss)
  unfold smarts_fragment_priority
  rw [if_pos h1]
  exact rfl

/-- C4. **Bounded suppression search**: when every heavy atom is matched by
some pattern but the first pass fails the coverage/hydrogen check, the
engine tries the suppression sets `suppressionCombos` — every combination
of exactly 1, 2, 3, 4 and 5 collected occurrences, in increasing size — and
returns the rerun assignment of the first set passing the check with
`success = true`; when no combination of size up to 5 passes, it returns
`success = false` with the failure diagnostic. -/
theorem backtracking_search_first_success (catalog : List GroupObj) (mol : Molecule)
    (am : List (Nat × List (List Nat)))
    (h1 : (allHeavies am).card = mol.atoms.card)
    (h2 : priority_check catalog mol (first_pass catalog mol am) = false) :
    (∀ c, (suppressionCombos am).find?
        (fun c2 => priority_check catalog mol
          (run_match (catalog_by_priority catalog) am c2 mol.atoms mol.H_count)) = some c →
      smarts_fragment_priority catalog mol am =
        ⟨(run_match (catalog_by_priority catalog) am c mol.atoms mol.H_count).final_group_counts,
         (run_match (catalog_by_priority catalog) am c mol.atoms mol.H_count).final_assignments,
         (run_match (catalog_by_priority catalog) am c mol.atoms mol.H_count).matched_atoms,
         true, "OK"⟩) ∧
    ((suppressionCombos am).find?
        (fun c2 => priority_check catalog mol
          (run_match (catalog_by_priority catalog) am c2 mol.atoms mol.H_count)) = none →
      (smarts_fragment_priority catalog mol am).success = false ∧
        (smarts_fragment_priority catalog mol am).status = "Did not match all atoms present") := by
  have hfind := searchFrom_find (catalog_by_priority catalog) am mol.atoms mol.H_count
    (priority_check catalog mol) (suppressionCombos am) (first_pass catalog mol am)
  have hne : ¬ (allHeavies am).card ≠ mol.atoms.card := by rw [h1]; exact fun h => h rfl
  have h2n : ¬ priority_check catalog mol (first_pass catalog mol am) = true := by
    rw [h2]; exact Bool.false_ne_true
  constructor
  · intro c hsome
    have hsearch : priority_search catalog mol am =
        (run_match (catalog_by_priority catalog) am c mol.atoms mol.H_count, true) :=
      hfind.1 c hsome
    unfold smarts_fragment_priority
    rw [if_neg hne, if_neg h2n, hsearch]
    rw [if_pos rfl]
  · intro hnone
    have hsearch : (priority_search catalog mol am).2 = false := hfind.2 hnone
    unfold smarts_fragment_priority
    rw [if_neg hne, if_neg h2n]
    have : ¬ (priority_search catalog mol am).2 = true := by
      rw [hsearch]; exact Bool.false_ne_true
    rw [if_neg this]
    exact ⟨rfl, rfl⟩

/-- Insertion keeps exactly the elements. -/
theorem insDesc_perm (x : Int × Nat) (l : List (Int × Nat)) :
    (insDesc x l).Perm (x :: l) := by
  induction l with
  | nil => simp [insDesc]
  | cons y ys ih =>
    by_cases h : pairGe x y
    · simp [insDesc, h]
    · rw [insDesc, if_neg h]
      exact (List.Perm.cons y ih).trans (List.Perm.swap x y ys)

/-- The descending sort is a permutation of its input. -/
theorem insertionSortDesc_perm (l : List (Int × Nat)) :
    (insertionSortDesc l).Perm l := by
  induction l with
  | nil => simp [insertionSortDesc]
  | cons x xs ih =>
    exact (insDesc_perm x (insertionSortDesc xs)).trans (List.Perm.cons x ih)

/-- Totality of the descending pair order. -/
theorem pairGe_total (x y : Int × Nat) (h : ¬ pairGe x y) : pairGe y x := by
  unfold pairGe at *
  omega

/-- Transitivity of the descending pair order. -/
theorem pairGe_trans (x y z : Int × Nat) (h1 : pairGe x y) (h2 : pairGe y z) : pairGe x z := by
  unfold pairGe at *
  omega

/-- Inserting into a descending-sorted list keeps it sorted. -/
theorem insDesc_sorted (x : Int × Nat) (l : List (Int × Nat))
    (hl : l.Pairwise pairGe) : (insDesc x l).Pairwise pairGe := by
  induction l with
  | nil => simp [insDesc]
  | cons y ys ih =>
    rw [List.pairwise_cons] at hl
    obtain ⟨hy, hys⟩ := hl
    by_cases h : pairGe x y
    · rw [insDesc, if_pos h]
      rw [List.pairwise_cons]
      refine ⟨?_, by rw [List.pairwise_cons]; exact ⟨hy, hys⟩⟩
      intro z hz
      rcases List.mem_cons.mp hz with h2 | h2
      · rw [h2]; exact h
      · exact pairGe_trans x y z h (hy z h2)
    · rw [insDesc, if_neg h]
      rw [List.pairwise_cons]
      refine ⟨?_, ih hys⟩
      intro z hz
      rcases List.mem_cons.mp ((insDesc_perm x ys).mem_iff.mp hz) with h2 | h2
      · rw [h2]; exact pairGe_total x y h
      · exact hy z h2

/-- The descending sort is sorted under the descending pair order. -/
theorem insertionSortDesc_sorted (l : List (Int × Nat)) :
    (insertionSortDesc l).Pairwise pairGe := by
  induction l with
  | nil => simp [insertionSortDesc]
  | cons x xs ih => exact insDesc_sorted x (insertionSortDesc xs) ih

/-- A group id absent from the catalog has no last-wins entry. -/
theorem lookupLastObj_none (catalog : List GroupObj) (g : Nat)
    (h : g ∉ catalog.map GroupObj.group_id) : lookupLastObj catalog g = none := by
  induction catalog with
  | nil => rfl
  | cons o rest ih =>
    simp only [List.map_cons, List.mem_cons] at h
    push_neg at h
    rw [lookupLastObj, ih h.2]
    rw [if_neg (fun h2 => h.1 h2.symm)]

/-- With distinct group ids, the last-wins dictionary retrieves the unique
entry with the looked-up id. -/
theorem lookupLastObj_nodup (catalog : List GroupObj) (o : GroupObj)
    (hnd : (catalog.map GroupObj.group_id).Nodup) (ho : o ∈ catalog) :
    lookupLastObj catalog o.group_id = some o := by
  induction catalog with
  | nil => simp at ho
  | cons o1 rest ih =>
    rw [List.map_cons, List.nodup_cons] at hnd
    obtain ⟨hno1, hndr⟩ := hnd
    rcases List.mem_cons.mp ho with h | h
    · subst h
      rw [lookupLastObj, lookupLastObj_none rest o.group_id hno1, if_pos rfl]
    · rw [lookupLastObj, ih hndr h]

/-- With distinct group ids, sorting then re-fetching the objects preserves
the `(priority, group_id)` projections. -/
theorem catalog_by_priority_proj (catalog : List GroupObj)
    (hnd : (catalog.map GroupObj.group_id).Nodup) :
    (catalog_by_priority catalog).map (fun o => (o.priority, o.group_id)) =
      insertionSortDesc (catalog.map (fun o => (o.priority, o.group_id))) := by
  unfold catalog_by_priority
  rw [List.map_map]
  have hmem : ∀ pg ∈ insertionSortDesc (catalog.map (fun o => (o.priority, o.group_id))),
      ((fun o => (o.priority, o.group_id)) ∘ fun pg => group_to_obj catalog pg.2) pg = pg := by
    intro pg hpg
    have hpg2 : pg ∈ catalog.map (fun o => (o.priority, o.group_id)) :=
      (insertionSortDesc_perm _).mem_iff.mp hpg
    obtain ⟨o, ho, hpo⟩ := List.mem_map.mp hpg2
    have : group_to_obj catalog pg.2 = o := by
      rw [group_to_obj, ← hpo]
      rw [lookupLastObj_nodup catalog o hnd ho]
      rfl
    simp only [Function.comp_apply]
    rw [this]
    exact hpo
  calc (insertionSortDesc (catalog.map (fun o => (o.priority, o.group_id)))).map
        ((fun o => (o.priority, o.group_id)) ∘ fun pg => group_to_obj catalog pg.2)
      = (insertionSortDesc (catalog.map (fun o => (o.priority, o.group_id)))).map id := by
        exact List.map_congr_left hmem
    _ = insertionSortDesc (catalog.map (fun o => (o.priority, o.group_id))) := List.map_id _

/-- Looking up a key in the counts built from hit-list lengths gives the
length of that key's looked-up hit list. -/
theorem lookupCount_map_length (l : List (Nat × List (List Nat))) (g : Nat) :
    lookupCount (l.map (fun kv => (kv.1, kv.2.length))) g = (lookupMatches l g).length := by
  induction l with
  | nil => simp [lookupCount, lookupMatches]
  | cons kv rest ih =>
    by_cases h : kv.1 = g
    · simp [lookupCount, lookupMatches, h]
    · simp [lookupCount, lookupMatches, h, ih]

/-- The returned counts of `smarts_fragment` are always the initial,
pre-deduplication counts. -/
theorem smarts_fragment_counts_eq (hits : List (Nat × List (List Nat))) (atom_count : Nat)
    (deduplicate : Bool) :
    (smarts_fragment hits atom_count deduplicate).1 = smarts_fragment_counts hits := by
  unfold smarts_fragment
  split_ifs <;> rfl

/-- C6 (amended). **Count/occurrence agreement**: in priority mode every
group's count equals the length of its accepted occurrence list; in
strict-cover mode the returned count of a group equals the length of its
*initial* hit list (the one recorded before the deduplication loop), not
of the list remaining after deletions. -/
theorem group_counts_match_occurrences :
    (∀ (cbp : List GroupObj) (am : List (Nat × List (List Nat)))
        (ig : List (Nat × List Nat)) (atoms : Finset Nat) (hc g : Nat),
      lookupCount (run_match cbp am ig atoms hc).final_group_counts g =
        (lookupMatches (run_match cbp am ig atoms hc).final_assignments g).length) ∧
    (∀ (hits : List (Nat × List (List Nat))) (atom_count : Nat) (deduplicate : Bool) (g : Nat),
      lookupCount (smarts_fragment hits atom_count deduplicate).1 g =
        (lookupMatches (initial_matches hits) g).length) := by
  constructor
  · exact fun cbp am ig atoms hc g => run_match_counts_length cbp am ig atoms hc g
  · intro hits atom_count deduplicate g
    rw [smarts_fragment_counts_eq, smarts_fragment_counts, lookupCount_map_length]

/-- C6 counterexample. In strict-cover mode the deduplication loop deletes
group 1's only tuple, yet the returned (successful) result still reports a
count of 1 for group 1 while 0 occurrence tuples of group 1 remain. -/
theorem strict_cover_counts_stale_counterexample :
    lookupCount (smarts_fragment [(1, [[0]]), (2, [[0, 1]])] 2 true).1 1 = 1 ∧
      (lookupMatches (smarts_fragment_final_matches [(1, [[0]]), (2, [[0, 1]])]) 1).length = 0 ∧
      (smarts_fragment [(1, [[0]]), (2, [[0, 1]])] 2 true).2.1 = true := by
  exact ⟨by decide, by decide, by decide⟩

/-- C5 (amended). **Whole-molecule hydrogen guard, nonzero case**: a
candidate tuple covering the entire heavy-atom set is skipped (the state
is returned unchanged) whenever the molecule's total hydrogen count is
nonzero and the group's declared fixed hydrogen count differs from it. -/
theorem whole_molecule_guard_skips (obj : GroupObj) (atoms : Finset Nat) (hc : Nat)
    (ig : List (Nat × List Nat)) (st : RMState) (m : List Nat)
    (h1 : m.toFinset = atoms) (h2 : hc ≠ 0) (h3 : dictGet obj.atoms "H" 0 ≠ hc) :
    run_match_tuple obj atoms hc ig st m = st := by
  unfold run_match_tuple
  by_cases h4 : (m.toFinset ∩ st.matched_atoms).Nonempty
  · rw [if_pos h4]
  · rw [if_neg h4, if_pos ⟨h1, h2, h3⟩]

/-- Witness for the whole-molecule hydrogen guard: concrete skip. -/
theorem whole_molecule_guard_skips_witness :
    run_match_tuple ⟨7, 1, false, [("H", 2)]⟩ {0} 1 [] ⟨∅, [], []⟩ [0] = ⟨∅, [], []⟩ :=
  whole_molecule_guard_skips ⟨7, 1, false, [("H", 2)]⟩ {0} 1 [] ⟨∅, [], []⟩ [0]
    (by decide) (by decide) (by decide)

/-- C5 counterexample. For a molecule with hydrogen count zero, Python's
truthiness test `if ... and H_count and ...` disables the guard: the
whole-molecule tuple of a group declaring 1 hydrogen (≠ 0) is *accepted*,
not skipped — `matched_atoms` becomes the whole atom set and the group is
counted once. -/
theorem whole_molecule_guard_zero_h_counterexample :
    (run_match [⟨7, 1, false, [("H", 1)]⟩] [(7, [[0]])] [] {0} 0).matched_atoms = {0} ∧
      (run_match [⟨7, 1, false, [("H", 1)]⟩] [(7, [[0]])] [] {0} 0).final_group_counts =
        [(7, 1)] := by
  exact ⟨by decide, by decide⟩

/-- C8 (amended). **Catalog processing order**: with distinct group ids,
priority-mode processing order is a permutation of the catalog arranged in
descending lexicographic `(priority, group_id)` order — descending
priority first, ties broken by *descending group id* (Python compares the
zipped tuples), not by stable catalog order. -/
theorem catalog_by_priority_order (catalog : List GroupObj)
    (hnd : (catalog.map GroupObj.group_id).Nodup) :
    ((catalog_by_priority catalog).map (fun o => (o.priority, o.group_id))).Perm
        (catalog.map (fun o => (o.priority, o.group_id))) ∧
      ((catalog_by_priority catalog).map (fun o => (o.priority, o.group_id))).Pairwise pairGe := by
  rw [catalog_by_priority_proj catalog hnd]
  exact ⟨insertionSortDesc_perm _, insertionSortDesc_sorted _⟩

/-- Witness for the processing-order theorem at a concrete catalog. -/
theorem catalog_by_priority_order_witness :
    ((catalog_by_priority [⟨1, 5, false, []⟩, ⟨2, 3, false, []⟩]).map
        (fun o => (o.priority, o.group_id))).Perm
        (([⟨1, 5, false, []⟩, ⟨2, 3, false, []⟩] : List GroupObj).map
          (fun o => (o.priority, o.group_id))) ∧
      ((catalog_by_priority [⟨1, 5, false, []⟩, ⟨2, 3, false, []⟩]).map
        (fun o => (o.priority, o.group_id))).Pairwise pairGe :=
  catalog_by_priority_order [⟨1, 5, false, []⟩, ⟨2, 3, false, []⟩] (by decide)

/-- C8 counterexample. Two entries with equal priority are processed in
*reversed* catalog order (group id 2 before group id 1), because the sort
compares `(priority, group_id)` tuples in reverse — not in stable catalog
order as claimed. -/
theorem equal_priority_not_stable_counterexample :
    catalog_by_priority [⟨1, 5, false, []⟩, ⟨2, 5, false, []⟩] =
        [⟨2, 5, false, []⟩, ⟨1, 5, false, []⟩] ∧
      ([⟨2, 5, false, []⟩, ⟨1, 5, false, []⟩] : List GroupObj) ≠
        [⟨1, 5, false, []⟩, ⟨2, 5, false, []⟩] := by
  exact ⟨by decide, by decide⟩

/-- C9 (amended). **Suppression only removes options**: for suppression
sets S ⊆ S2, every occurrence accepted by `run_match` under S2 is an
occurrence the MatchSet holds for that group and is not suppressed under
S either — enlarging the suppressed set never adds candidates. (The
claimed monotonicity of `matched_atoms` *size* is false; see the
counterexample.) -/
theorem suppression_shrinks_options (cbp : List GroupObj)
    (am : List (Nat × List (List Nat))) (atoms : Finset Nat) (hc : Nat)
    (S S2 : List (Nat × List Nat)) (hS : ∀ o ∈ S, o ∈ S2) (g : Nat) (t : List Nat)
    (ht : t ∈ lookupMatches (run_match cbp am S2 atoms hc).final_assignments g) :
    t ∈ lookupMatches am g ∧ (g, t) ∉ S := by
  obtain ⟨h1, h2⟩ := run_match_accepted_from_matches cbp am S2 atoms hc g t ht
  exact ⟨h1, fun h3 => h2 (hS _ h3)⟩

/-- Witness for the option-shrinking theorem at a concrete instance. -/
theorem suppression_shrinks_options_witness :
    [0] ∈ lookupMatches [(10, [[0, 1]]), (11, [[0]]), (12, [[1, 2]])] 11 ∧
      (11, [0]) ∉ ([] : List (Nat × List Nat)) :=
  suppression_shrinks_options [⟨10, 3, false, []⟩, ⟨11, 2, false, []⟩, ⟨12, 1, false, []⟩]
    [(10, [[0, 1]]), (11, [[0]]), (12, [[1, 2]])] {0, 1, 2} 0 [] [(10, [0, 1])]
    (by decide) 11 [0] (by decide)

/-- C9 counterexample. Enlarging the suppressed set from ∅ to
{(group 10, (0,1))} *increases* the matched-atom count from 2 to 3:
suppressing the high-priority two-atom match frees atoms for the two
lower-priority matches that together cover more. -/
theorem suppression_not_monotone_counterexample :
    (∀ o ∈ ([] : List (Nat × List Nat)), o ∈ [(10, [0, 1])]) ∧
      (run_match [⟨10, 3, false, []⟩, ⟨11, 2, false, []⟩, ⟨12, 1, false, []⟩]
          [(10, [[0, 1]]), (11, [[0]]), (12, [[1, 2]])] []
          {0, 1, 2} 0).matched_atoms.card <
        (run_match [⟨10, 3, false, []⟩, ⟨11, 2, false, []⟩, ⟨12, 1, false, []⟩]
          [(10, [[0, 1]]), (11, [[0]]), (12, [[1, 2]])] [(10, [0, 1])]
          {0, 1, 2} 0).matched_atoms.card := by
  exact ⟨by decide, by decide⟩

/-- C7. **Stale-index deletion in the strict-cover round** (the bug the
source itself flags: "Not handling the case of multiple duplicate matches
right, indexes changing!!!"): with competitors (0,), (0,) and the
non-competitor (3,) under group 1 against the maximal (0,1,2) of group 2,
the round deletes positions 0 and 1 of group 1's *shrinking* list, so the
second deletion removes (3,) instead of the second (0,): a smaller
competing tuple (0,) survives the round. -/
theorem dedup_round_stale_index :
    dedup_round [(1, [[0], [0], [3]]), (2, [[0, 1, 2]])] 0 =
        [(1, [[0]]), (2, [[0, 1, 2]])] ∧
      [0] ∈ lookupMatches (dedup_round [(1, [[0], [0], [3]]), (2, [[0, 1, 2]])] 0) 1 := by
  exact ⟨by decide, by decide⟩

/-- C10. **Construction-failure return shape**: when molecule construction
from the SMILES string fails, `smarts_fragment_priority` executes
`return {}, success, status` — a three-component return, not the
documented five-component record. -/
theorem construction_failure_three_component_return (catalog : List GroupObj) :
    smarts_fragment_priority_api catalog none =
      PriorityReturn.construction_failed [] false "Failed to construct mol" := rfl

/-- Witness for the success-iff theorem at a concrete success instance. -/
theorem smarts_fragment_priority_success_iff_witness :
    (smarts_fragment_priority [⟨1, 1, false, [("H", 2)]⟩]
        ⟨{0}, fun _ => 0, 2⟩ [(1, [[0]])]).success = true ↔
      ((smarts_fragment_priority [⟨1, 1, false, [("H", 2)]⟩]
          ⟨{0}, fun _ => 0, 2⟩ [(1, [[0]])]).matched_atoms = {0} ∧
        hydrogens_found (group_to_obj [⟨1, 1, false, [("H", 2)]⟩]) (fun _ => 0)
          (smarts_fragment_priority [⟨1, 1, false, [("H", 2)]⟩]
            ⟨{0}, fun _ => 0, 2⟩ [(1, [[0]])]).final_assignments = 2) :=
  smarts_fragment_priority_success_iff [⟨1, 1, false, [("H", 2)]⟩]
    ⟨{0}, fun _ => 0, 2⟩ [(1, [[0]])] (by decide)

/-- Witness for the immediate-failure theorem: atom 1 is matched by no
pattern, and the call returns the first-pass record with the failure
status. -/
theorem incomplete_coverage_immediate_witness :
    smarts_fragment_priority [⟨1, 1, false, []⟩]
        ⟨({0, 1} : Finset Nat), fun _ => 0, 0⟩ [(1, [[0]])] =
      ⟨(run_match (catalog_by_priority [⟨1, 1, false, []⟩]) [(1, [[0]])] []
          ({0, 1} : Finset Nat) 0).final_group_counts,
       (run_match (catalog_by_priority [⟨1, 1, false, []⟩]) [(1, [[0]])] []
          ({0, 1} : Finset Nat) 0).final_assignments,
       (run_match (catalog_by_priority [⟨1, 1, false, []⟩]) [(1, [[0]])] []
          ({0, 1} : Finset Nat) 0).matched_atoms,
       false, "Did not match all atoms present"⟩ :=
  incomplete_coverage_immediate [⟨1, 1, false, []⟩]
    ⟨({0, 1} : Finset Nat), fun _ => 0, 0⟩ [(1, [[0]])] (by decide) (by decide)

/-- Witness for the bounded-search theorem: the first size-1 suppression
set (suppressing the high-priority (0,1) match) already succeeds, and the
call returns its rerun assignment with `success = true`. -/
theorem backtracking_search_first_success_witness :
    smarts_fragment_priority [⟨10, 3, true, []⟩, ⟨11, 2, true, []⟩, ⟨12, 1, true, []⟩]
        ⟨({0, 1, 2} : Finset Nat), fun _ => 0, 0⟩
        [(10, [[0, 1]]), (11, [[0]]), (12, [[1, 2]])] =
      ⟨[(11, 1), (12, 1)], [(11, [[0]]), (12, [[1, 2]])], {0, 1, 2}, true, "OK"⟩ := by
  have h := (backtracking_search_first_success
    [⟨10, 3, true, []⟩, ⟨11, 2, true, []⟩, ⟨12, 1, true, []⟩]
    ⟨({0, 1, 2} : Finset Nat), fun _ => 0, 0⟩
    [(10, [[0, 1]]), (11, [[0]]), (12, [[1, 2]])]
    (by decide) (by decide)).1 [(10, [0, 1])] (by decide)
  rw [h]
  decide
